import Mathlib

/-!
Shallow embedding of the bidirectional form↔URL synchronization engine of
`FilteredAbstractComponent` and its `StatsComponent` subclass
(src/app/shared/components/filtered-abstract.component.ts).

Query-parameter values are decoded JS strings; we model them as `List Char`
so the character-level operations of the codec (`split`, `join`, `padStart`)
can be reasoned about elementwise.  Form state (`FormGroup.value`, which
contains only the enabled controls) is an insertion-ordered record from
control name to a possibly-null value.  JS numbers appearing in the date
codec are modelled as `Option Int` with `none` playing the role of NaN, and
a JS `Date` is either a valid date (year/month/day as returned by
`getFullYear`/`getMonth`/`getDate`, plus a time of day that the codec
ignores) or the distinguished Invalid Date.
-/

abbrev Chars := List Char

/-- The character JS produces for the decimal digit `k < 10`. -/
def digitChar (k : Nat) : Char := Char.ofNat (48 + k)

/-- Fuel-indexed decimal rendering; any `fuel ≥ n` computes the digits of `n`
(most significant first).  The fuel only serves structural recursion. -/
def natToCharsGo : Nat → Nat → Chars
  | 0, n => [digitChar n]
  | fuel + 1, n =>
    if n < 10 then [digitChar n]
    else natToCharsGo fuel (n / 10) ++ [digitChar (n % 10)]

/-- Decimal rendering of a natural number, as JS `String(n)` produces for a
nonnegative integral value. -/
def natToChars (n : Nat) : Chars := natToCharsGo n n

/-- JS `String(i)` for an integral number value. -/
def intToChars (i : Int) : Chars :=
  if i < 0 then '-' :: natToChars i.natAbs else natToChars i.toNat

/-- JS `String.prototype.padStart(2, '0')`. -/
def padStart2 (s : Chars) : Chars :=
  if 2 ≤ s.length then s else List.replicate (2 - s.length) '0' ++ s

/-- JS `String.prototype.split` with a single-character separator. -/
def splitOnChar (sep : Char) : Chars → List Chars
  | [] => [[]]
  | c :: cs =>
    match splitOnChar sep cs with
    | [] => [[]]
    | w :: ws => if c = sep then [] :: w :: ws else (c :: w) :: ws

/-- Value of a nonempty all-digit string, as JS `Number` computes it. -/
def digitsToNat (s : Chars) : Nat := s.foldl (fun a c => a * 10 + (c.toNat - 48)) 0

/-- JS `Number(s)`, restricted to the integral literals this wire format can
carry: the empty string converts to `0`, an optionally `-`-signed digit string
to its value, and anything else to NaN (`none`).  Fractional, exponent, hex
and whitespace forms never occur in this codec's traffic and are also mapped
to NaN. -/
def jsNumber (s : Chars) : Option Int :=
  if s = [] then some 0
  else if s.all (fun c => c.isDigit) then some ((digitsToNat s : Nat) : Int)
  else
    match s with
    | '-' :: rest =>
      if rest ≠ [] ∧ rest.all (fun c => c.isDigit) then some (-((digitsToNat rest : Nat) : Int))
      else none
    | _ => none

/-- Proleptic-Gregorian leap year, as JS `Date` uses. -/
def isLeapYear (y : Int) : Bool := (y % 4 == 0 && y % 100 != 0) || y % 400 == 0

/-- Days in month `m0` (0-based, January = 0) of year `y`. -/
def daysInMonthJS (y m0 : Int) : Int :=
  if m0 = 1 then (if isLeapYear y then 29 else 28)
  else if m0 = 3 ∨ m0 = 5 ∨ m0 = 8 ∨ m0 = 10 then 30
  else 31

/-- Day number (days since 1970-01-01) of a civil date, month 0-based; the
standard civil-calendar arithmetic that ECMAScript `MakeDay` specifies.
Divisions are by positive constants, so Euclidean division coincides with the
floored division JS performs. -/
def civilToDayNumber (y m0 d : Int) : Int :=
  let m := m0 + 1
  let y1 := if m ≤ 2 then y - 1 else y
  let era := y1.fdiv 400
  let yoe := y1 - era * 400
  let mp := if 2 < m then m - 3 else m + 9
  let doy := (153 * mp + 2).ediv 5 + d - 1
  let doe := yoe * 365 + yoe.ediv 4 - yoe.ediv 100 + doy
  era * 146097 + doe - 719468

/-- Inverse of `civilToDayNumber`: the civil date (year, 0-based month, day)
of a day number. -/
def dayNumberToCivil (z0 : Int) : Int × Int × Int :=
  let z := z0 + 719468
  let era := z.fdiv 146097
  let doe := z - era * 146097
  let yoe := (doe - doe.ediv 1460 + doe.ediv 36524 - doe.ediv 146096).ediv 365
  let y := yoe + era * 400
  let doy := doe - (365 * yoe + yoe.ediv 4 - yoe.ediv 100)
  let mp := (5 * doy + 2).ediv 153
  let d := doy - (153 * mp + 2).ediv 5 + 1
  let m := if mp < 10 then mp + 3 else mp - 9
  (if m ≤ 2 then y + 1 else y, m - 1, d)

/-- The observable components of a valid JS `Date`: `getFullYear`, `getMonth`
(0-based), `getDate`, plus the time of day in milliseconds (ignored by the
date codec; `new Date(y, m, d)` sets it to 0). -/
structure JSDate where
  year : Int
  month : Int
  day : Int
  timeMs : Nat
  deriving DecidableEq

/-- Component normalization performed by `new Date(y, m, d)`: out-of-range
months roll into years and out-of-range days roll through the calendar.  When
the components already denote a real calendar date the constructor keeps them
unchanged; otherwise the date is rebuilt from its day number. -/
def normalizeYMD (y m d : Int) : JSDate :=
  let y1 := y + m.ediv 12
  let m1 := m.emod 12
  if 1 ≤ d ∧ d ≤ daysInMonthJS y1 m1 then ⟨y1, m1, d, 0⟩
  else
    let c := dayNumberToCivil (civilToDayNumber y1 m1 1 + (d - 1))
    ⟨c.1, c.2.1, c.2.2, 0⟩

/-- `new Date(year, month, day)` with possibly-NaN (`none`) arguments: any
NaN argument yields an Invalid Date (`none`); a year argument between 0 and
99 is mapped to 1900 + year; the time of day is midnight.  (The ±8.64e15 ms
representable-range clamp of JS dates is not modelled.) -/
def jsDateCtor (y m d : Option Int) : Option JSDate :=
  match y, m, d with
  | some y, some m, some d =>
    some (normalizeYMD (if 0 ≤ y ∧ y ≤ 99 then 1900 + y else y) m d)
  | _, _, _ => none

/-- The typed values the filter state can hold: a valid `Date`, the Invalid
Date (also an `instanceof Date`), an array, or a plain string. -/
inductive Value where
  | date (dt : JSDate)
  | invalidDate
  | arr (elems : List Chars)
  | str (s : Chars)
  deriving DecidableEq

/-- The `Date` branch of `serializeUrlParam` (filtered-abstract.component.ts
lines 37-44): local calendar date as
`${getFullYear()}-${String(getMonth()+1).padStart(2,'0')}-${String(getDate()).padStart(2,'0')}`. -/
def serializeDate (dt : JSDate) : Chars :=
  intToChars dt.year ++ '-' :: (padStart2 (intToChars (dt.month + 1)) ++ '-' :: padStart2 (intToChars dt.day))

/-- What the Date branch produces for an Invalid Date: every getter returns
NaN and `String(NaN) = "NaN"` (already length 3, so `padStart` keeps it). -/
def invalidDateChars : Chars := "NaN-NaN-NaN".toList

/-- `serializeUrlParam` (lines 33-49): `null`/`undefined` serialize to `null`
(the caller then omits the key), a `Date` to its local `YYYY-MM-DD` form, an
array to its comma-join, anything else to `String(value)`. -/
def serializeUrlParam : Option Value → Option Chars
  | none => none
  | some (.date dt) => some (serializeDate dt)
  | some .invalidDate => some invalidDateChars
  | some (.arr xs) => some (List.intercalate [','] xs)
  | some (.str s) => some s

/-- `FormGroup.value`: an insertion-ordered record from (enabled) control
name to its possibly-null value. -/
abbrev StateMap := List (String × Option Value)

/-- JS object key assignment `o[k] = v`: overwrites in place if the key is
already present (insertion order is preserved), otherwise appends. -/
def recordSet (r : List (String × α)) (k : String) (v : α) : List (String × α) :=
  match r with
  | [] => [(k, v)]
  | (k', v') :: rest => if k' = k then (k, v) :: rest else (k', v') :: recordSet rest k v

/-- The `queryParams` record built by `updateUrl` (lines 106-132): for each
key of the form value, map it through `getUrlParamKey` (`uk`) and serialize
the value; `null` serializations are omitted from the record. -/
def updateUrlParams (uk : String → String) (formValue : StateMap) : List (String × Chars) :=
  formValue.foldl
    (fun qp kv =>
      match serializeUrlParam kv.2 with
      | some s => recordSet qp (uk kv.1) s
      | none => qp)
    []

/-- The single `router.navigate` call issued at the end of `updateUrl`:
`queryParamsHandling: 'replace'` and `replaceUrl: true`. -/
structure WireWrite where
  queryParams : List (String × Chars)
  handlingIsReplace : Bool
  replaceUrl : Bool
  deriving DecidableEq

/-- The wire-write events emitted by one invocation of `updateUrl`: the body
only builds the `queryParams` object; the lone emission is the final
`router.navigate` call. -/
def updateUrlEvents (uk : String → String) (s : StateMap) : List WireWrite :=
  [⟨updateUrlParams uk s, true, true⟩]

/-- With `queryParamsHandling: 'replace'` the query string after the write is
the written record, whatever was on the wire before. -/
def wireAfterWrite (_prev : List (String × Chars)) (w : WireWrite) : List (String × Chars) :=
  w.queryParams

/-- One diagnostic (`console.warn`) per skipped field during reconciliation. -/
inductive Diag where
  | unresolvedKey (urlKey : String)
  | deserFailed (urlKey : String)
  deriving DecidableEq

/-- Accumulator of the reconciliation pass: the partial form value collected
so far and the diagnostics emitted so far.  `hasChanges` of the source is
`patch ≠ []` (the patch only ever grows). -/
structure ReconcileAcc where
  patch : List (String × Value)
  diags : List Diag
  deriving DecidableEq

/-- `getFormControlKey` (lines 175-179): the first form-control key whose
`getUrlParamKey` image is the wire key, else `null`. -/
def getFormControlKey (controls : List String) (uk : String → String) (urlKey : String) : Option String :=
  controls.find? (fun k => uk k == urlKey)

/-- One iteration of the `Object.keys(params).forEach` body of
`updateFormFromUrl` (lines 142-161): the empty string is falsy, so the entry
is skipped outright; an unresolved key or a deserializer exception produce
one `console.warn` diagnostic each and leave the patch alone (the `catch` is
per-field); a successful deserialization is recorded into the patch. -/
def reconcileStep (controls : List String) (uk : String → String)
    (deser : String → Chars → Except Unit Value)
    (acc : ReconcileAcc) (e : String × Chars) : ReconcileAcc :=
  if e.2 = [] then acc
  else
    match getFormControlKey controls uk e.1 with
    | some formKey =>
      match deser e.1 e.2 with
      | .ok v => { acc with patch := recordSet acc.patch formKey v }
      | .error _ => { acc with diags := acc.diags ++ [.deserFailed e.1] }
    | none => { acc with diags := acc.diags ++ [.unresolvedKey e.1] }

/-- `updateFormFromUrl` (lines 134-173) up to the final `patchValue`: fold the
per-entry step over the incoming wire record. -/
def updateFormFromUrl (controls : List String) (uk : String → String)
    (deser : String → Chars → Except Unit Value)
    (params : List (String × Chars)) : ReconcileAcc :=
  params.foldl (reconcileStep controls uk deser) ⟨[], []⟩

/-- `patchValue(formValue, {emitEvent: false})`: every control named in the
patch receives the patched value, all other controls keep theirs; patch keys
matching no control are ignored.  `emitEvent: false` means the patch itself
triggers no new `valueChanges` emission (hence no re-projection). -/
def applyPatch (s : StateMap) (patch : List (String × Value)) : StateMap :=
  s.map (fun kv =>
    match List.lookup kv.1 patch with
    | some v => (kv.1, some v)
    | none => kv)

/-- The state after one reconciliation pass: `patchValue` is called only when
`hasChanges`, i.e. when the collected patch is nonempty. -/
def applyReconcile (s : StateMap) (acc : ReconcileAcc) : StateMap :=
  if acc.patch = [] then s else applyPatch s acc.patch

/-- The control names of `StatsComponent.createFilters`. -/
def statsControls : List String := ["dateFrom", "dateTo", "compareDateFrom", "compareDateTo"]

/-- `StatsComponent.getUrlParamKey`: the identity mapping. -/
def statsUrlKey (k : String) : String := k

/-- JS `String.prototype.includes`. -/
def containsSeq (pat : Chars) : Chars → Bool
  | [] => pat.isEmpty
  | c :: cs => pat.isPrefixOf (c :: cs) || containsSeq pat cs

/-- `StatsComponent.deserializeUrlParam` (lines 300-308): keys containing
`date` or `Date` are parsed as `new Date(year, month - 1, day)` from the
`-`-split, `Number`-mapped components (destructuring a too-short array gives
`undefined`, which behaves as NaN in the arithmetic); other keys pass the raw
string through.  Note that nothing here throws: malformed input reaches the
`Date` constructor and comes back as an Invalid Date. -/
def deserializeUrlParamStats (key : String) (value : Chars) : Value :=
  if containsSeq "date".toList key.toList || containsSeq "Date".toList key.toList then
    let parts := (splitOnChar '-' value).map jsNumber
    match jsDateCtor (parts.getD 0 none) ((parts.getD 1 none).map (fun x => x - 1)) (parts.getD 2 none) with
    | some dt => .date dt
    | none => .invalidDate
  else .str value

/-- The Stats deserializer lifted to the reconciler's interface: it never
throws, so it is total (`Except.ok` always); the reconciler's `catch` branch
is unreachable for this subclass. -/
def statsDeser (key : String) (value : Chars) : Except Unit Value :=
  .ok (deserializeUrlParamStats key value)

/-- `Validators.required` sits on each of the four date controls; disabled
controls are excluded both from `value` and from validity, so the form is
valid iff every enabled control holds a non-null value. -/
def statsValid (s : StateMap) : Bool := s.all (fun kv => kv.2.isSome)

/-- Outward effects of the debounced subscriber: a wire write (the
`router.navigate` call inside `updateUrl`) or a data-load trigger
(`dataUpdateRequested$.next()`, whose `switchMap`ped `loadData` reads the
current form value as its snapshot). -/
inductive SyncAction where
  | wireWrite (w : WireWrite)
  | fetchRequest (snapshot : StateMap)
  deriving DecidableEq

/-- Body of the debounced `valueChanges` subscriber (lines 83-90): always
call `updateUrl`; trigger a data load only if the form is valid. -/
def onDebounceElapsed (uk : String → String) (valid : StateMap → Bool) (s : StateMap) : List SyncAction :=
  (updateUrlEvents uk s).map .wireWrite ++ (if valid s then [.fetchRequest s] else [])

/-- `debounceTime d` over a time-stamped event list (times nondecreasing): an
event's value is emitted `d` after its arrival unless a further event arrives
strictly within those `d` units, which discards the pending value and
restarts the timer. -/
def debounceRx (d : Nat) : List (Nat × α) → List (Nat × α)
  | [] => []
  | (t, v) :: rest =>
    match rest with
    | [] => [(t + d, v)]
    | (t', _) :: _ =>
      if t + d ≤ t' then (t + d, v) :: debounceRx d rest else debounceRx d rest

/-- `distinctUntilChanged()` compares successive emissions with `===`;
`FormGroup.valueChanges` emits a freshly allocated object on every change, so
no emission is reference-equal to its predecessor and the operator passes
every event through. -/
def distinctUntilChangedRefs (events : List (Nat × StateMap)) : List (Nat × StateMap) := events

/-- The actions the filter pipeline (lines 74-90) produces for a burst of
time-stamped state-change events. -/
def windowActions (uk : String → String) (valid : StateMap → Bool)
    (events : List (Nat × StateMap)) : List SyncAction :=
  (debounceRx 300 (distinctUntilChangedRefs events)).flatMap (fun tv => onDebounceElapsed uk valid tv.2)

/-- State of the data-load subscription (lines 57-72).  `retry({count: 3})` is
placed after `catchError` (which rethrows), so a `loadData` failure tears the
chain down and `retry` resubscribes the *trigger subject* — a `Subject` does
not replay, so the fresh subscription merely waits for the next trigger.
`retriesLeft` counts the remaining resubscriptions; once they are exhausted
the next error propagates and the subscription is closed for good. -/
structure DataPipeState where
  retriesLeft : Nat
  alive : Bool
  deriving DecidableEq

/-- Initial subscription state: `retry({count: 3})`. -/
def initDataPipe : DataPipeState := ⟨3, true⟩

/-- Effect of one trigger (`dataUpdateRequested$.next()`) when `loadData`
always fails: a live chain invokes `loadData` exactly once via `switchMap`;
the failure then either consumes one resubscription or, when none remain,
terminates the subscription.  Returns the next state and the number of
`loadData` invocations this trigger caused. -/
def failingTriggerStep (st : DataPipeState) : DataPipeState × Nat :=
  if st.alive then
    if 0 < st.retriesLeft then (⟨st.retriesLeft - 1, true⟩, 1)
    else (⟨0, false⟩, 1)
  else (st, 0)

/-- Total `loadData` invocations across `n` triggers with an always-failing
collaborator. -/
def loadInvocations : Nat → DataPipeState → Nat
  | 0, _ => 0
  | n + 1, st => (failingTriggerStep st).2 + loadInvocations n (failingTriggerStep st).1

/-- Date-only equality of state values (the equality the wire can preserve:
`YYYY-MM-DD` carries no time of day). -/
def valueDateOnlyEq : Option Value → Option Value → Bool
  | none, none => true
  | some (.date a), some (.date b) => a.year == b.year && a.month == b.month && a.day == b.day
  | some .invalidDate, some .invalidDate => true
  | some (.arr a), some (.arr b) => a == b
  | some (.str a), some (.str b) => a == b
  | _, _ => false

/-- Pointwise date-only equality of two form states. -/
def stateDateOnlyEq : StateMap → StateMap → Bool
  | [], [] => true
  | kv1 :: r1, kv2 :: r2 =>
    kv1.1 == kv2.1 && valueDateOnlyEq kv1.2 kv2.2 && stateDateOnlyEq r1 r2
  | _, _ => false

/-- Clearing one field of the form state: the control's value becomes null. -/
def clearField (f : String) (s : StateMap) : StateMap :=
  s.map (fun kv => if kv.1 = f then (kv.1, none) else kv)

/-- The validity domain of the date values this screen's codec can round-trip
verbatim: a real calendar day whose year has three or more digits (below 100
the constructor's two-digit-year rule rewrites the year). -/
def dtOK (dt : JSDate) : Prop :=
  100 ≤ dt.year ∧ 0 ≤ dt.month ∧ dt.month ≤ 11 ∧ 1 ≤ dt.day ∧ dt.day ≤ daysInMonthJS dt.year dt.month

instance : DecidablePred dtOK := fun dt => by unfold dtOK; infer_instance

/-! ### Decimal rendering and parsing -/

lemma natToCharsGo_congr : ∀ f f' n, n ≤ f → n ≤ f' → natToCharsGo f n = natToCharsGo f' n := by
  intro f
  induction f with
  | zero =>
    intro f' n hf _
    interval_cases n
    cases f' <;> simp [natToCharsGo]
  | succ f ih =>
    intro f' n hf hf'
    by_cases h10 : n < 10
    · cases f' <;> simp [natToCharsGo, h10]
    · cases f' with
      | zero => omega
      | succ f'' =>
        have hd : n / 10 ≤ f := by
          have := Nat.div_lt_self (by omega : 0 < n) (by omega : 1 < 10)
          omega
        have hd' : n / 10 ≤ f'' := by
          have := Nat.div_lt_self (by omega : 0 < n) (by omega : 1 < 10)
          omega
        simp only [natToCharsGo, h10, if_false]
        rw [ih f'' (n / 10) hd hd']

lemma natToChars_eq (n : Nat) :
    natToChars n = if n < 10 then [digitChar n] else natToChars (n / 10) ++ [digitChar (n % 10)] := by
  by_cases h10 : n < 10
  · unfold natToChars
    cases n with
    | zero => simp [natToCharsGo, h10]
    | succ m => simp [natToCharsGo, h10]
  · unfold natToChars
    cases n with
    | zero => omega
    | succ m =>
      simp only [natToCharsGo, h10, if_false]
      rw [natToCharsGo_congr m ((m + 1) / 10) ((m + 1) / 10)
        (by have := Nat.div_lt_self (by omega : 0 < m + 1) (by omega : 1 < 10); omega) le_rfl]

lemma digitChar_isDigit {k : Nat} (h : k < 10) : (digitChar k).isDigit = true := by
  interval_cases k <;> decide

lemma digitChar_toNat {k : Nat} (h : k < 10) : (digitChar k).toNat = 48 + k := by
  interval_cases k <;> decide

lemma digitChar_ne_dash {k : Nat} (h : k < 10) : digitChar k ≠ '-' := by
  interval_cases k <;> decide

lemma natToChars_ne_nil (n : Nat) : natToChars n ≠ [] := by
  rw [natToChars_eq]
  split <;> simp

lemma natToChars_all_digit (n : Nat) : ∀ c ∈ natToChars n, c.isDigit = true := by
  induction n using Nat.strong_induction_on with
  | _ n ih =>
    rw [natToChars_eq]
    by_cases h10 : n < 10
    · simp [h10, digitChar_isDigit]
    · simp only [h10, if_false]
      intro c hc
      rcases List.mem_append.mp hc with h | h
      · exact ih (n / 10) (Nat.div_lt_self (by omega) (by omega)) c h
      · simp at h
        subst h
        exact digitChar_isDigit (Nat.mod_lt n (by omega : 0 < 10))

lemma digitsToNat_append (a b : Chars) :
    digitsToNat (a ++ b) = b.foldl (fun x c => x * 10 + (c.toNat - 48)) (digitsToNat a) := by
  simp [digitsToNat, List.foldl_append]

lemma digitsToNat_natToChars (n : Nat) : digitsToNat (natToChars n) = n := by
  induction n using Nat.strong_induction_on with
  | _ n ih =>
    rw [natToChars_eq]
    by_cases h10 : n < 10
    · simp [h10, digitsToNat, digitChar_toNat h10]
    · simp only [h10, if_false]
      rw [digitsToNat_append]
      simp [ih (n / 10) (Nat.div_lt_self (by omega) (by omega)),
        digitChar_toNat (Nat.mod_lt n (by omega : 0 < 10))]
      omega

lemma padStart2_all_digit (s : Chars) (h : ∀ c ∈ s, c.isDigit = true) :
    ∀ c ∈ padStart2 s, c.isDigit = true := by
  unfold padStart2
  split
  · exact h
  · intro c hc
    rcases List.mem_append.mp hc with hr | hs
    · have := List.eq_of_mem_replicate hr
      subst this
      decide
    · exact h c hs

lemma padStart2_ne_nil (s : Chars) (h : s ≠ []) : padStart2 s ≠ [] := by
  unfold padStart2
  split
  · exact h
  · simp [h]

lemma digitsToNat_replicate_zero (k : Nat) (s : Chars) :
    digitsToNat (List.replicate k '0' ++ s) = digitsToNat s := by
  induction k with
  | zero => simp
  | succ n ih =>
    rw [List.replicate_succ]
    simpa [digitsToNat] using ih

lemma digitsToNat_padStart2 (s : Chars) : digitsToNat (padStart2 s) = digitsToNat s := by
  unfold padStart2
  split
  · rfl
  · exact digitsToNat_replicate_zero _ s

lemma jsNumber_digits (s : Chars) (hne : s ≠ []) (hd : ∀ c ∈ s, c.isDigit = true) :
    jsNumber s = some ((digitsToNat s : Nat) : Int) := by
  unfold jsNumber
  rw [if_neg hne, if_pos]
  rw [List.all_eq_true]
  intro c hc
  exact hd c hc

lemma not_dash_of_digit {c : Char} (h : c.isDigit = true) : c ≠ '-' := by
  intro he
  subst he
  simp [Char.isDigit] at h

/-! ### `split('-')` on the serialized form -/

lemma splitOnChar_ne_nil (sep : Char) (s : Chars) : splitOnChar sep s ≠ [] := by
  cases s with
  | nil => simp [splitOnChar]
  | cons c cs =>
    unfold splitOnChar
    split
    · simp
    · split <;> simp

lemma splitOnChar_no_sep (sep : Char) (s : Chars) (h : sep ∉ s) : splitOnChar sep s = [s] := by
  induction s with
  | nil => rfl
  | cons c cs ih =>
    have hc : c ≠ sep := fun he => h (he ▸ List.mem_cons_self c cs)
    have hcs : sep ∉ cs := fun hm => h (List.mem_cons_of_mem c hm)
    unfold splitOnChar
    rw [ih hcs]
    simp [hc]

lemma splitOnChar_append (sep : Char) (a rest : Chars) (h : sep ∉ a) :
    splitOnChar sep (a ++ sep :: rest) = a :: splitOnChar sep rest := by
  obtain ⟨w, ws, hs⟩ : ∃ w ws, splitOnChar sep rest = w :: ws := by
    cases hsp : splitOnChar sep rest with
    | nil => exact absurd hsp (splitOnChar_ne_nil sep rest)
    | cons w ws => exact ⟨w, ws, rfl⟩
  induction a with
  | nil =>
    rw [List.nil_append, hs]
    simp [splitOnChar, hs]
  | cons c cs ih =>
    have hc : c ≠ sep := fun he => h (he ▸ List.mem_cons_self c cs)
    have hcs : sep ∉ cs := fun hm => h (List.mem_cons_of_mem c hm)
    rw [List.cons_append, hs]
    simp [splitOnChar, ih hcs, hs, hc]

lemma intToChars_nonneg (i : Int) (h : 0 ≤ i) : intToChars i = natToChars i.toNat := by
  unfold intToChars
  rw [if_neg (by omega)]

lemma natToChars_no_dash (n : Nat) : '-' ∉ natToChars n := by
  intro hm
  exact absurd (natToChars_all_digit n _ hm) (by decide)

lemma pad_natToChars_no_dash (n : Nat) : '-' ∉ padStart2 (natToChars n) := by
  intro hm
  exact absurd (padStart2_all_digit (natToChars n) (natToChars_all_digit n) _ hm) (by decide)

lemma serializeDate_parts (dt : JSDate) (hy : 0 ≤ dt.year) (hm : 0 ≤ dt.month) (hd : 0 ≤ dt.day) :
    splitOnChar '-' (serializeDate dt) =
      [natToChars dt.year.toNat, padStart2 (natToChars (dt.month + 1).toNat),
        padStart2 (natToChars dt.day.toNat)] := by
  unfold serializeDate
  rw [intToChars_nonneg _ hy, intToChars_nonneg _ (by omega), intToChars_nonneg _ hd]
  rw [splitOnChar_append _ _ _ (natToChars_no_dash _)]
  rw [splitOnChar_append _ _ _ (pad_natToChars_no_dash _)]
  rw [splitOnChar_no_sep _ _ (pad_natToChars_no_dash _)]

lemma jsNumber_natToChars (n : Nat) : jsNumber (natToChars n) = some ((n : Nat) : Int) := by
  rw [jsNumber_digits _ (natToChars_ne_nil n) (natToChars_all_digit n), digitsToNat_natToChars]

lemma jsNumber_pad_natToChars (n : Nat) : jsNumber (padStart2 (natToChars n)) = some ((n : Nat) : Int) := by
  rw [jsNumber_digits _ (padStart2_ne_nil _ (natToChars_ne_nil n))
    (padStart2_all_digit _ (natToChars_all_digit n)), digitsToNat_padStart2, digitsToNat_natToChars]

/-- Core round trip of the Stats date codec: a real calendar date with a
three-or-more-digit year survives `serialize` then `deserialize` exactly, up
to the time of day being reset to midnight. -/
lemma statsRoundTrip (key : String) (dt : JSDate)
    (hk : (containsSeq "date".toList key.toList || containsSeq "Date".toList key.toList) = true)
    (h : dtOK dt) :
    deserializeUrlParamStats key (serializeDate dt) = .date ⟨dt.year, dt.month, dt.day, 0⟩ := by
  obtain ⟨h1, h2, h3, h4, h5⟩ := h
  unfold deserializeUrlParamStats
  rw [if_pos hk]
  rw [serializeDate_parts dt (by omega) h2 (by omega)]
  simp only [List.map_cons, List.map_nil, jsNumber_natToChars, jsNumber_pad_natToChars,
    List.getD_cons_zero, List.getD_cons_succ, Option.map_some, Option.map_some']
  rw [Int.toNat_of_nonneg (by omega : (0:Int) ≤ dt.year),
    Int.toNat_of_nonneg (by omega : (0:Int) ≤ dt.month + 1),
    Int.toNat_of_nonneg (by omega : (0:Int) ≤ dt.day)]
  simp only [jsDateCtor]
  rw [if_neg (by omega : ¬(0 ≤ dt.year ∧ dt.year ≤ 99))]
  unfold normalizeYMD
  have hdiv : (dt.month + 1 - 1).ediv 12 = 0 := by
    have : dt.month + 1 - 1 = dt.month := by omega
    rw [this]
    exact Int.ediv_eq_zero_of_lt h2 (by omega)
  have hmod : (dt.month + 1 - 1).emod 12 = dt.month := by
    have : dt.month + 1 - 1 = dt.month := by omega
    rw [this]
    exact Int.emod_eq_of_lt h2 (by omega)
  simp only [hdiv, hmod, add_zero]
  rw [if_pos ⟨h4, h5⟩]

lemma natToChars_length_le_two (n : Nat) (h : n < 100) : (natToChars n).length ≤ 2 := by
  rw [natToChars_eq]
  by_cases h10 : n < 10
  · simp [h10]
  · rw [if_neg h10]
    have hq : n / 10 < 10 := by omega
    rw [natToChars_eq, if_pos hq]
    simp

lemma natToChars_length_pos (n : Nat) : 1 ≤ (natToChars n).length := by
  have := natToChars_ne_nil n
  cases hc : natToChars n with
  | nil => exact absurd hc this
  | cons a l => simp

lemma padStart2_length_eq_two (s : Chars) (h1 : 1 ≤ s.length) (h2 : s.length ≤ 2) :
    (padStart2 s).length = 2 := by
  unfold padStart2
  split
  · omega
  · simp only [List.length_append, List.length_replicate]
    omega

lemma daysInMonthJS_le_31 (y m : Int) : daysInMonthJS y m ≤ 31 := by
  unfold daysInMonthJS
  split
  · split <;> omega
  · split <;> omega

/-- C5 (amended): for every valid calendar date `v` whose year is at least
100 (three or more digits — below that the `Date` constructor's two-digit
year rule rewrites the year, see the counterexample), with any time of day,
deserializing the serialization of `v` yields the date with the same local
year, month and day (time of day reset to midnight), i.e. `v` up to
date-only equality; and the serialized form is the local calendar date
`Y…Y-MM-DD` with two-digit zero-padded month and day components. -/
theorem claim5_roundtrip_dateonly (dt : JSDate) (h : dtOK dt) :
    deserializeUrlParamStats "dateFrom" (serializeDate dt) = .date ⟨dt.year, dt.month, dt.day, 0⟩
    ∧ valueDateOnlyEq (some (.date ⟨dt.year, dt.month, dt.day, 0⟩)) (some (.date dt)) = true
    ∧ splitOnChar '-' (serializeDate dt) =
        [natToChars dt.year.toNat, padStart2 (natToChars (dt.month + 1).toNat),
          padStart2 (natToChars dt.day.toNat)]
    ∧ (padStart2 (natToChars (dt.month + 1).toNat)).length = 2
    ∧ (padStart2 (natToChars dt.day.toNat)).length = 2 := by
  obtain ⟨h1, h2, h3, h4, h5⟩ := h
  refine ⟨statsRoundTrip "dateFrom" dt (by decide) ⟨h1, h2, h3, h4, h5⟩, ?_, ?_, ?_, ?_⟩
  · simp [valueDateOnlyEq]
  · exact serializeDate_parts dt (by omega) h2 (by omega)
  · refine padStart2_length_eq_two _ (natToChars_length_pos _) (natToChars_length_le_two _ ?_)
    omega
  · refine padStart2_length_eq_two _ (natToChars_length_pos _) (natToChars_length_le_two _ ?_)
    have := daysInMonthJS_le_31 dt.year dt.month
    omega

/-- C5 counterexample: the year-50 calendar date `0050-01-02` is a valid
calendar date, but its serialization is `50-1-2`-style (`50-01-02`) and
`new Date(50, 0, 2)` applies the two-digit-year rule, producing year 1950:
the round trip is not date-only equal to the original value, refuting the
claim for "any year". -/
theorem claim5_counterexample :
    deserializeUrlParamStats "dateFrom" (serializeDate ⟨50, 0, 2, 0⟩) = .date ⟨1950, 0, 2, 0⟩
    ∧ valueDateOnlyEq (some (deserializeUrlParamStats "dateFrom" (serializeDate ⟨50, 0, 2, 0⟩)))
        (some (.date ⟨50, 0, 2, 0⟩)) = false := by
  constructor
  · rfl
  · rfl

/-- C5 witness: the amended round trip evaluated at 2024-01-15 with a
nonzero time of day. -/
theorem claim5_witness :
    dtOK ⟨2024, 0, 15, 3600000⟩
    ∧ (deserializeUrlParamStats "dateFrom" (serializeDate ⟨2024, 0, 15, 3600000⟩)
          = .date ⟨2024, 0, 15, 0⟩
      ∧ valueDateOnlyEq (some (.date ⟨2024, 0, 15, 0⟩)) (some (.date ⟨2024, 0, 15, 3600000⟩)) = true
      ∧ splitOnChar '-' (serializeDate ⟨2024, 0, 15, 3600000⟩) =
          [natToChars (2024 : Int).toNat, padStart2 (natToChars ((0 : Int) + 1).toNat),
            padStart2 (natToChars (15 : Int).toNat)]
      ∧ (padStart2 (natToChars ((0 : Int) + 1).toNat)).length = 2
      ∧ (padStart2 (natToChars (15 : Int).toNat)).length = 2) :=
  ⟨by decide, claim5_roundtrip_dateonly ⟨2024, 0, 15, 3600000⟩ (by decide)⟩

/-! ### C3: malformed date input -/

/-- C3: evaluating the code at the claimed failing input.  The incoming wire
record `{dateFrom: "not-a-date"}` does *not* produce an empty patch and one
`InvalidFormat` diagnostic: `"not-a-date".split('-')` maps to NaN components,
`new Date(NaN, NaN, NaN)` returns an Invalid Date without throwing, so the
per-field `catch` never fires.  The reconciler produces the patch
`{dateFrom: Invalid Date}`, zero diagnostics, and `patchValue` overwrites the
prior value of `dateFrom` with the Invalid Date. -/
theorem claim3_code_divergence :
    updateFormFromUrl statsControls statsUrlKey statsDeser [("dateFrom", "not-a-date".toList)]
      = ⟨[("dateFrom", Value.invalidDate)], []⟩
    ∧ applyReconcile
        [("dateFrom", some (.date ⟨2024, 0, 1, 0⟩)), ("dateTo", some (.date ⟨2024, 0, 31, 0⟩))]
        (updateFormFromUrl statsControls statsUrlKey statsDeser [("dateFrom", "not-a-date".toList)])
      = [("dateFrom", some Value.invalidDate), ("dateTo", some (.date ⟨2024, 0, 31, 0⟩))] := by
  exact ⟨rfl, rfl⟩

/-! ### C10: empty-string wire entries -/

/-- C10: an incoming wire entry whose value is the empty string is falsy and
skipped before resolution and deserialization: for every surrounding record,
every codec and every registry, the reconciliation result (patch and
diagnostics alike) is exactly that of the record without the entry — it is
never deserialized, patches nothing and produces no diagnostic. -/
theorem claim10_empty_value_skipped (controls : List String) (uk : String → String)
    (deser : String → Chars → Except Unit Value)
    (before after : List (String × Chars)) (k : String) :
    updateFormFromUrl controls uk deser (before ++ (k, ([] : Chars)) :: after)
      = updateFormFromUrl controls uk deser (before ++ after) := by
  simp [updateFormFromUrl, List.foldl_append, reconcileStep]

/-! ### C7: wire write always, fetch gated on validity -/

/-- Recognizer for wire-write actions. -/
def isWireWriteAct : SyncAction → Bool
  | .wireWrite _ => true
  | _ => false

/-- Recognizer for data-load trigger actions. -/
def isFetchAct : SyncAction → Bool
  | .fetchRequest _ => true
  | _ => false

/-- C7: when the debounced subscriber runs, it emits exactly one wire write
(carrying the projection of the current state) regardless of validity, and it
issues a fetch if and only if the validity predicate holds of the state: an
invalid state produces a wire write but no fetch. -/
theorem claim7_wire_unconditional_fetch_gated (uk : String → String)
    (valid : StateMap → Bool) (s : StateMap) :
    (onDebounceElapsed uk valid s).countP isWireWriteAct = 1
    ∧ SyncAction.wireWrite ⟨updateUrlParams uk s, true, true⟩ ∈ onDebounceElapsed uk valid s
    ∧ (onDebounceElapsed uk valid s).countP isFetchAct = (if valid s then 1 else 0) := by
  cases hv : valid s <;>
    simp [onDebounceElapsed, updateUrlEvents, hv, List.countP_cons, List.countP_nil,
      isWireWriteAct, isFetchAct]

/-! ### C8: one wire write per projection, but no SyncTag exists -/

/-- C8 (amended): every invocation of `updateUrl` emits exactly one
wire-write event — the single `router.navigate` call — carrying the
serialized query params with replace semantics.  No `SyncTag` or counter of
any kind is attached: the emitted event is a pure function of the current
form state (see the counterexample). -/
theorem claim8_single_untagged_write (uk : String → String) (s : StateMap) :
    (updateUrlEvents uk s).length = 1
    ∧ ∀ w ∈ updateUrlEvents uk s,
        w.queryParams = updateUrlParams uk s ∧ w.handlingIsReplace = true ∧ w.replaceUrl = true := by
  simp [updateUrlEvents]

/-- C8 counterexample: two consecutive invocations of `updateUrl` on the same
state emit identical wire-write events, so no component of the event is a
fresh, strictly increasing tag: for every candidate tag-extracting function
the second write's tag fails to exceed the first's.  The claimed monotone
`SyncTag` does not exist in the code. -/
theorem claim8_counterexample :
    (updateUrlEvents statsUrlKey [("dateFrom", some (.date ⟨2024, 0, 15, 0⟩))]
      ++ updateUrlEvents statsUrlKey [("dateFrom", some (.date ⟨2024, 0, 15, 0⟩))]).length = 2
    ∧ ∀ w1 ∈ updateUrlEvents statsUrlKey [("dateFrom", some (.date ⟨2024, 0, 15, 0⟩))],
      ∀ w2 ∈ updateUrlEvents statsUrlKey [("dateFrom", some (.date ⟨2024, 0, 15, 0⟩))],
        w1 = w2 ∧ ∀ f : WireWrite → Nat, ¬ f w1 < f w2 := by
  refine ⟨rfl, ?_⟩
  intro w1 h1 w2 h2
  simp only [updateUrlEvents, List.mem_singleton] at h1 h2
  subst h1
  subst h2
  exact ⟨rfl, fun f => lt_irrefl _⟩

/-! ### C2: retry placement and loadData invocation counts -/

lemma loadInvocations_dead (n r : Nat) : loadInvocations n ⟨r, false⟩ = 0 := by
  induction n with
  | zero => rfl
  | succ m ih => simpa [loadInvocations, failingTriggerStep] using ih

lemma loadInvocations_alive (n : Nat) : ∀ r, loadInvocations n ⟨r, true⟩ = min n (r + 1) := by
  induction n with
  | zero => intro r; rfl
  | succ m ih =>
    intro r
    by_cases hr : 0 < r
    · have : failingTriggerStep ⟨r, true⟩ = (⟨r - 1, true⟩, 1) := by
        simp [failingTriggerStep, hr]
      rw [loadInvocations, this]
      simp only
      rw [ih (r - 1)]
      omega
    · have hr0 : r = 0 := by omega
      subst hr0
      have : failingTriggerStep ⟨0, true⟩ = (⟨0, false⟩, 1) := by
        simp [failingTriggerStep]
      rw [loadInvocations, this]
      simp only
      rw [loadInvocations_dead]
      omega

/-- C2 (amended): with an always-failing fetch collaborator, one triggered
fetch invokes `loadData` exactly once — the error tears the chain down and
`retry({count: 3})` resubscribes the trigger *subject*, which does not
replay, rather than re-invoking the fetch.  Across the subscription's
lifetime the first 4 failing triggers each invoke `loadData` once (1 initial
subscription + 3 resubscriptions), after which the stream is terminated and
further triggers invoke it zero times: total invocations for `n` triggers is
`min n 4`, and in particular the retrying is bounded. -/
theorem claim2_amended_bounded (n : Nat) :
    loadInvocations n initDataPipe = min n 4 := by
  have := loadInvocations_alive n 3
  simpa [initDataPipe] using this

/-- C2 counterexample: one triggered fetch against an always-failing
collaborator invokes `loadData` exactly once, not the claimed 3 times. -/
theorem claim2_counterexample :
    loadInvocations 1 initDataPipe = 1 ∧ ¬ loadInvocations 1 initDataPipe = 3 := by
  exact ⟨rfl, by decide⟩

/-! ### C9: debounce collapse -/

/-- A burst of events each arriving strictly within `d` of its predecessor
collapses under `debounceTime d` to a single emission: the last value, `d`
after the last arrival. -/
lemma debounceRx_burst (d : Nat) :
    ∀ (es : List (Nat × α)) (tl : Nat) (vl : α),
      List.Chain' (fun a b => b.1 < a.1 + d) (es ++ [(tl, vl)]) →
      debounceRx d (es ++ [(tl, vl)]) = [(tl + d, vl)] := by
  intro es
  induction es with
  | nil =>
    intro tl vl _
    simp [debounceRx]
  | cons x es ih =>
    intro tl vl h
    obtain ⟨t, v⟩ := x
    cases es with
    | nil =>
      have hx : tl < t + d := by simpa using h
      show debounceRx d ([(t, v)] ++ [(tl, vl)]) = [(tl + d, vl)]
      rw [List.singleton_append]
      show (if t + d ≤ tl then (t + d, v) :: debounceRx d [(tl, vl)] else debounceRx d [(tl, vl)])
          = [(tl + d, vl)]
      rw [if_neg (by omega)]
      simp [debounceRx]
    | cons y es' =>
      obtain ⟨ty, vy⟩ := y
      have hc := List.chain'_cons.mp h
      have hy : ty < t + d := hc.1
      have ht : List.Chain' (fun a b => b.1 < a.1 + d) ((ty, vy) :: es' ++ [(tl, vl)]) := by
        simpa using hc.2
      show (if t + d ≤ ty then (t + d, v) :: debounceRx d ((ty, vy) :: es' ++ [(tl, vl)])
            else debounceRx d ((ty, vy) :: es' ++ [(tl, vl)])) = [(tl + d, vl)]
      rw [if_neg (by omega)]
      exact ih tl vl ht

/-- C9: any burst of `N ≥ 1` state-mutation events, each arriving strictly
within the 300 ms debounce window of its predecessor, produces exactly the
actions of one subscriber run on the *last* event's snapshot: one projected
wire write carrying that snapshot, and, iff the snapshot is valid, one fetch
request carrying it.  No superseded snapshot is ever projected or fetched. -/
theorem claim9_debounce_collapse (uk : String → String) (valid : StateMap → Bool)
    (es : List (Nat × StateMap)) (tl : Nat) (vl : StateMap)
    (h : List.Chain' (fun a b => b.1 < a.1 + 300) (es ++ [(tl, vl)])) :
    windowActions uk valid (es ++ [(tl, vl)]) =
      SyncAction.wireWrite ⟨updateUrlParams uk vl, true, true⟩
        :: (if valid vl then [SyncAction.fetchRequest vl] else [])
    ∧ (windowActions uk valid (es ++ [(tl, vl)])).countP isWireWriteAct = 1
    ∧ (windowActions uk valid (es ++ [(tl, vl)])).countP isFetchAct
        = (if valid vl then 1 else 0) := by
  have hw : windowActions uk valid (es ++ [(tl, vl)]) =
      SyncAction.wireWrite ⟨updateUrlParams uk vl, true, true⟩
        :: (if valid vl then [SyncAction.fetchRequest vl] else []) := by
    unfold windowActions distinctUntilChangedRefs
    rw [debounceRx_burst 300 es tl vl h]
    cases hv : valid vl <;> simp [onDebounceElapsed, updateUrlEvents, hv]
  refine ⟨hw, ?_, ?_⟩ <;>
    rw [hw] <;> cases hv : valid vl <;>
      simp [hv, List.countP_cons, List.countP_nil, isWireWriteAct, isFetchAct]

/-- C9 witness: a three-event burst (at 0, 100 and 250 ms, gaps < 300 ms)
ending in a valid snapshot. -/
theorem claim9_witness :
    List.Chain' (fun (a b : Nat × StateMap) => b.1 < a.1 + 300)
      ([(0, [("dateFrom", some (.date ⟨2024, 0, 1, 0⟩))]), (100, [("dateFrom", none)])]
        ++ [(250, [("dateFrom", some (.date ⟨2024, 0, 2, 0⟩))])])
    ∧ (windowActions statsUrlKey statsValid
        ([(0, [("dateFrom", some (.date ⟨2024, 0, 1, 0⟩))]), (100, [("dateFrom", none)])]
          ++ [(250, [("dateFrom", some (.date ⟨2024, 0, 2, 0⟩))])]) =
        SyncAction.wireWrite
            ⟨updateUrlParams statsUrlKey [("dateFrom", some (.date ⟨2024, 0, 2, 0⟩))], true, true⟩
          :: (if statsValid [("dateFrom", some (.date ⟨2024, 0, 2, 0⟩))]
              then [SyncAction.fetchRequest [("dateFrom", some (.date ⟨2024, 0, 2, 0⟩))]] else [])
      ∧ (windowActions statsUrlKey statsValid
          ([(0, [("dateFrom", some (.date ⟨2024, 0, 1, 0⟩))]), (100, [("dateFrom", none)])]
            ++ [(250, [("dateFrom", some (.date ⟨2024, 0, 2, 0⟩))])])).countP isWireWriteAct = 1
      ∧ (windowActions statsUrlKey statsValid
          ([(0, [("dateFrom", some (.date ⟨2024, 0, 1, 0⟩))]), (100, [("dateFrom", none)])]
            ++ [(250, [("dateFrom", some (.date ⟨2024, 0, 2, 0⟩))])])).countP isFetchAct
          = (if statsValid [("dateFrom", some (.date ⟨2024, 0, 2, 0⟩))] then 1 else 0)) :=
  ⟨by simp [List.chain'_cons], 
    claim9_debounce_collapse statsUrlKey statsValid
      [(0, [("dateFrom", some (.date ⟨2024, 0, 1, 0⟩))]), (100, [("dateFrom", none)])]
      250 [("dateFrom", some (.date ⟨2024, 0, 2, 0⟩))] (by simp [List.chain'_cons])⟩

/-! ### C4: per-field failure isolation -/

/-- The patch contribution of one reconciliation step does not depend on the
diagnostics already accumulated, and its diagnostic contribution is appended
to whatever is already there. -/
lemma reconcileStep_decomp (controls : List String) (uk : String → String)
    (deser : String → Chars → Except Unit Value)
    (p : List (String × Value)) (d : List Diag) (e : String × Chars) :
    reconcileStep controls uk deser ⟨p, d⟩ e
      = ⟨(reconcileStep controls uk deser ⟨p, []⟩ e).patch,
          d ++ (reconcileStep controls uk deser ⟨p, []⟩ e).diags⟩ := by
  unfold reconcileStep
  split
  · simp
  · cases hk : getFormControlKey controls uk e.1 with
    | some fk => cases hd : deser e.1 e.2 <;> simp
    | none => simp

/-- `reconcileStep_decomp` folded over a whole record. -/
lemma reconcile_foldl_decomp (controls : List String) (uk : String → String)
    (deser : String → Chars → Except Unit Value) :
    ∀ (l : List (String × Chars)) (p : List (String × Value)) (d : List Diag),
      l.foldl (reconcileStep controls uk deser) ⟨p, d⟩
        = ⟨(l.foldl (reconcileStep controls uk deser) ⟨p, []⟩).patch,
            d ++ (l.foldl (reconcileStep controls uk deser) ⟨p, []⟩).diags⟩ := by
  intro l
  induction l with
  | nil => intro p d; simp
  | cons e l ih =>
    intro p d
    simp only [List.foldl_cons]
    rw [reconcileStep_decomp controls uk deser p d e]
    rw [ih ((reconcileStep controls uk deser ⟨p, []⟩ e).patch)
      (d ++ (reconcileStep controls uk deser ⟨p, []⟩ e).diags)]
    rw [ih ((reconcileStep controls uk deser ⟨p, []⟩ e).patch)
      ((reconcileStep controls uk deser ⟨p, []⟩ e).diags)]
    simp [List.append_assoc]

/-- Looking a key up after `patchValue` when the patch does not mention it
gives the key's prior value. -/
lemma lookup_applyPatch_of_none (k : String) (patch : List (String × Value)) :
    ∀ s : StateMap, List.lookup k patch = none →
      List.lookup k (applyPatch s patch) = List.lookup k s := by
  intro s
  induction s with
  | nil => intro _; rfl
  | cons kv s ih =>
    intro hp
    obtain ⟨k0, v0⟩ := kv
    by_cases hk : k = k0
    · subst hk
      cases hm : List.lookup k patch with
      | none => simp [applyPatch, List.lookup, hm]
      | some v => exact absurd hm (by simp [hp])
    · cases hm : List.lookup k0 patch with
      | none =>
        simp only [applyPatch, List.map_cons, hm]
        simpa [List.lookup, beq_eq_false_iff_ne.mpr hk] using ih hp
      | some v =>
        simp only [applyPatch, List.map_cons, hm]
        simpa [List.lookup, beq_eq_false_iff_ne.mpr hk] using ih hp

/-- C4: reconciliation is total and failures are isolated per field.
First part (for every record): dropping an entry whose value is truthy,
whose key resolves, and whose deserialization fails leaves the resulting
patch exactly unchanged and removes exactly one diagnostic — the failing
entry blocks nothing and contributes nothing but its diagnostic.
Second part (the claim's scenario): a record with two well-formed entries
around one failing entry yields a patch of exactly the two well-formed
fields plus one diagnostic for the failed entry, and the failed field's
prior state value is untouched by applying the patch. -/
theorem claim4_isolation_and_scenario
    (controls : List String) (uk : String → String) (deser : String → Chars → Except Unit Value)
    (s : StateMap)
    (p1 p2 : List (String × Chars)) (k : String) (c : Chars) (fk : String)
    (k1 k2 k3 : String) (c1 c2 c3 : Chars) (fk1 fk2 fk3 : String) (v1 v3 : Value)
    (hc : c ≠ []) (hr : getFormControlKey controls uk k = some fk) (hf : deser k c = .error ())
    (hc1 : c1 ≠ []) (hr1 : getFormControlKey controls uk k1 = some fk1) (hd1 : deser k1 c1 = .ok v1)
    (hc2 : c2 ≠ []) (hr2 : getFormControlKey controls uk k2 = some fk2) (hf2 : deser k2 c2 = .error ())
    (hc3 : c3 ≠ []) (hr3 : getFormControlKey controls uk k3 = some fk3) (hd3 : deser k3 c3 = .ok v3)
    (h31 : fk3 ≠ fk1) (h21 : fk2 ≠ fk1) (h23 : fk2 ≠ fk3) :
    ((updateFormFromUrl controls uk deser (p1 ++ (k, c) :: p2)).patch
        = (updateFormFromUrl controls uk deser (p1 ++ p2)).patch
      ∧ (updateFormFromUrl controls uk deser (p1 ++ (k, c) :: p2)).diags.length
        = (updateFormFromUrl controls uk deser (p1 ++ p2)).diags.length + 1)
    ∧ (updateFormFromUrl controls uk deser [(k1, c1), (k2, c2), (k3, c3)]
        = ⟨[(fk1, v1), (fk3, v3)], [.deserFailed k2]⟩
      ∧ List.lookup fk2
          (applyReconcile s (updateFormFromUrl controls uk deser [(k1, c1), (k2, c2), (k3, c3)]))
        = List.lookup fk2 s) := by
  have hstep : ∀ A : ReconcileAcc,
      reconcileStep controls uk deser A (k, c) = ⟨A.patch, A.diags ++ [.deserFailed k]⟩ := by
    intro A
    simp [reconcileStep, hc, hr, hf]
  have hscen : updateFormFromUrl controls uk deser [(k1, c1), (k2, c2), (k3, c3)]
      = ⟨[(fk1, v1), (fk3, v3)], [.deserFailed k2]⟩ := by
    simp [updateFormFromUrl, reconcileStep, hc1, hr1, hd1, hc2, hr2, hf2, hc3, hr3, hd3,
      recordSet, Ne.symm h31]
  refine ⟨?_, hscen, ?_⟩
  · unfold updateFormFromUrl
    rw [List.foldl_append, List.foldl_append, List.foldl_cons, hstep]
    cases hA : List.foldl (reconcileStep controls uk deser) ⟨[], []⟩ p1 with
    | mk P D =>
      simp only
      rw [reconcile_foldl_decomp controls uk deser p2 P (D ++ [Diag.deserFailed k]),
        reconcile_foldl_decomp controls uk deser p2 P D]
      simp [List.length_append]
      omega
  · rw [hscen]
    unfold applyReconcile
    rw [if_neg (by simp)]
    refine lookup_applyPatch_of_none fk2 _ s ?_
    simp [List.lookup, beq_eq_false_iff_ne.mpr h21, beq_eq_false_iff_ne.mpr h23]

/-- C4 witness: a three-entry record over registry `a, b, c` whose middle
entry's deserialization throws, evaluated concretely. -/
theorem claim4_witness :
    getFormControlKey ["a", "b", "c"] statsUrlKey "b" = some "b"
    ∧ (((updateFormFromUrl ["a", "b", "c"] statsUrlKey
            (fun kk v => if kk == "b" then .error () else .ok (.str v))
            ([("a", ['1'])] ++ ("b", ['2']) :: [("c", ['3'])])).patch
          = (updateFormFromUrl ["a", "b", "c"] statsUrlKey
              (fun kk v => if kk == "b" then .error () else .ok (.str v))
              ([("a", ['1'])] ++ [("c", ['3'])])).patch
        ∧ (updateFormFromUrl ["a", "b", "c"] statsUrlKey
            (fun kk v => if kk == "b" then .error () else .ok (.str v))
            ([("a", ['1'])] ++ ("b", ['2']) :: [("c", ['3'])])).diags.length
          = (updateFormFromUrl ["a", "b", "c"] statsUrlKey
              (fun kk v => if kk == "b" then .error () else .ok (.str v))
              ([("a", ['1'])] ++ [("c", ['3'])])).diags.length + 1)
      ∧ (updateFormFromUrl ["a", "b", "c"] statsUrlKey
            (fun kk v => if kk == "b" then .error () else .ok (.str v))
            [("a", ['1']), ("b", ['2']), ("c", ['3'])]
          = ⟨[("a", .str ['1']), ("c", .str ['3'])], [.deserFailed "b"]⟩
        ∧ List.lookup "b"
            (applyReconcile [("a", some (.str ['x'])), ("b", some (.str ['y'])), ("c", none)]
              (updateFormFromUrl ["a", "b", "c"] statsUrlKey
                (fun kk v => if kk == "b" then .error () else .ok (.str v))
                [("a", ['1']), ("b", ['2']), ("c", ['3'])]))
          = List.lookup "b" [("a", some (.str ['x'])), ("b", some (.str ['y'])), ("c", none)])) :=
  ⟨by decide,
    claim4_isolation_and_scenario ["a", "b", "c"] statsUrlKey
      (fun kk v => if kk == "b" then .error () else .ok (.str v))
      [("a", some (.str ['x'])), ("b", some (.str ['y'])), ("c", none)]
      [("a", ['1'])] [("c", ['3'])] "b" ['2'] "b"
      "a" "b" "c" ['1'] ['2'] ['3'] "a" "b" "c" (.str ['1']) (.str ['3'])
      (by decide) (by decide) rfl
      (by decide) (by decide) rfl
      (by decide) (by decide) rfl
      (by decide) (by decide) rfl
      (by decide) (by decide) (by decide)⟩

/-! ### C6: omission of absent fields and full replacement -/

/-- The contribution of one form entry to the projected record. -/
def projEntry (uk : String → String) (kv : String × Option Value) : Option (String × Chars) :=
  (serializeUrlParam kv.2).map (fun cc => (uk kv.1, cc))

lemma projEntry_key (uk : String → String) (kv : String × Option Value) (e : String × Chars)
    (h : projEntry uk kv = some e) : e.1 = uk kv.1 := by
  unfold projEntry at h
  cases hv : serializeUrlParam kv.2 with
  | none => rw [hv] at h; simp at h
  | some c =>
    rw [hv] at h
    simp only [Option.map_some, Option.map_some', Option.some.injEq] at h
    subst h
    rfl

lemma nodup_cons_image (uk : String → String) (kv : String × Option Value) (s : StateMap)
    (hnd : ((kv :: s).map (fun kv => uk kv.1)).Nodup) :
    uk kv.1 ∉ s.map (fun kv => uk kv.1) ∧ (s.map (fun kv => uk kv.1)).Nodup := by
  rw [List.map_cons, List.nodup_cons] at hnd
  exact hnd

lemma recordSet_fresh (k : String) (v : α) :
    ∀ r : List (String × α), (∀ e ∈ r, e.1 ≠ k) → recordSet r k v = r ++ [(k, v)] := by
  intro r
  induction r with
  | nil => intro _; rfl
  | cons e r ih =>
    intro h
    obtain ⟨k0, v0⟩ := e
    have hk : k0 ≠ k := h (k0, v0) (List.mem_cons_self _ _)
    unfold recordSet
    rw [if_neg hk]
    simp only [List.cons_append]
    rw [ih (fun e he => h e (List.mem_cons_of_mem _ he))]

lemma updateUrlParams_go (uk : String → String) :
    ∀ (s : StateMap) (acc : List (String × Chars)),
      (∀ e ∈ acc, ∀ kv ∈ s, (e : String × Chars).1 ≠ uk kv.1) →
      (s.map (fun kv => uk kv.1)).Nodup →
      s.foldl
        (fun qp kv =>
          match serializeUrlParam kv.2 with
          | some c => recordSet qp (uk kv.1) c
          | none => qp)
        acc
        = acc ++ s.filterMap (projEntry uk) := by
  intro s
  induction s with
  | nil => intro acc _ _; simp
  | cons kv s ih =>
    intro acc hdisj hnd
    obtain ⟨hnd1, hnd2⟩ := nodup_cons_image uk kv s hnd
    rw [List.foldl_cons]
    rcases hv : serializeUrlParam kv.2 with _ | c
    · simp only [hv]
      rw [ih acc (fun e he kv' hkv' => hdisj e he kv' (List.mem_cons_of_mem _ hkv')) hnd2]
      simp [List.filterMap_cons, projEntry, hv]
    · simp only [hv]
      rw [recordSet_fresh (uk kv.1) c acc (fun e he => hdisj e he kv (List.mem_cons_self _ _))]
      have hdisj2 : ∀ e ∈ acc ++ [(uk kv.1, c)], ∀ kv' ∈ s, (e : String × Chars).1 ≠ uk kv'.1 := by
        intro e he kv' hkv'
        rcases List.mem_append.mp he with h | h
        · exact hdisj e h kv' (List.mem_cons_of_mem _ hkv')
        · have he2 : e = (uk kv.1, c) := by simpa using h
          subst he2
          intro hcontra
          apply hnd1
          rw [show uk kv.1 = uk kv'.1 from hcontra]
          exact List.mem_map_of_mem (fun kv => uk kv.1) hkv'
      rw [ih (acc ++ [(uk kv.1, c)]) hdisj2 hnd2]
      simp [List.filterMap_cons, projEntry, hv]

/-- With pairwise-distinct wire keys the projector is the entrywise
serialization, in form order, of the present fields. -/
lemma updateUrlParams_eq_filterMap (uk : String → String) (s : StateMap)
    (hnd : (s.map (fun kv => uk kv.1)).Nodup) :
    updateUrlParams uk s = s.filterMap (projEntry uk) := by
  have := updateUrlParams_go uk s [] (by simp) hnd
  simpa [updateUrlParams] using this

lemma clearField_of_not_mem (f : String) :
    ∀ s : StateMap, f ∉ s.map Prod.fst → clearField f s = s := by
  intro s
  induction s with
  | nil => intro _; rfl
  | cons kv s ih =>
    intro h
    obtain ⟨k0, v0⟩ := kv
    have hk : k0 ≠ f := by
      intro he
      exact h (by simp [he])
    have htail : f ∉ s.map Prod.fst := by
      intro hm
      apply h
      rw [List.map_cons]
      exact List.mem_cons_of_mem _ hm
    unfold clearField
    rw [List.map_cons]
    rw [if_neg hk]
    have := ih htail
    unfold clearField at this
    rw [this]

lemma filterMap_clearField (uk : String → String) (f : String) :
    ∀ s : StateMap, (s.map (fun kv => uk kv.1)).Nodup → f ∈ s.map Prod.fst →
      (clearField f s).filterMap (projEntry uk)
        = (s.filterMap (projEntry uk)).filter (fun e => e.1 != uk f) := by
  intro s
  induction s with
  | nil => intro _ hf; simp at hf
  | cons kv s ih =>
    intro hnd hf
    obtain ⟨k0, v0⟩ := kv
    obtain ⟨hnd1, hnd2⟩ := nodup_cons_image uk (k0, v0) s hnd
    rw [List.map_cons] at hf
    by_cases hk : k0 = f
    · subst hk
      have hnotin : k0 ∉ s.map Prod.fst := by
        intro hm
        rcases List.mem_map.mp hm with ⟨kv', hkv', he⟩
        apply hnd1
        rw [← he]
        exact List.mem_map_of_mem (fun kv => uk kv.1) hkv'
      have hclear : clearField k0 s = s := clearField_of_not_mem k0 s hnotin
      have hfilter : (s.filterMap (projEntry uk)).filter (fun e => e.1 != uk k0)
          = s.filterMap (projEntry uk) := by
        rw [List.filter_eq_self]
        intro e he
        rcases List.mem_filterMap.mp he with ⟨kv', hkv', hpe⟩
        have hkey := projEntry_key uk kv' e hpe
        have hne : uk kv'.1 ≠ uk k0 := by
          intro hcontra
          apply hnd1
          rw [← hcontra]
          exact List.mem_map_of_mem (fun kv => uk kv.1) hkv'
        simpa [bne_iff_ne, hkey] using hne
      have hhead : clearField k0 ((k0, v0) :: s) = (k0, (none : Option Value)) :: s := by
        unfold clearField
        rw [List.map_cons]
        rw [if_pos rfl]
        have htl : s.map (fun kv => if kv.1 = k0 then (kv.1, (none : Option Value)) else kv)
            = clearField k0 s := rfl
        rw [htl, hclear]
      rw [hhead]
      rw [List.filterMap_cons, List.filterMap_cons]
      have hnone : projEntry uk (k0, (none : Option Value)) = none := by
        simp [projEntry, serializeUrlParam]
      rw [hnone]
      rcases hv : projEntry uk (k0, v0) with _ | e0
      · rw [hfilter]
      · have he0 := projEntry_key uk (k0, v0) e0 hv
        rw [List.filter_cons]
        have hb : (e0.1 != uk k0) = false := by simp [bne_iff_ne, he0]
        rw [hb]
        simp only [Bool.false_eq_true, if_false]
        rw [hfilter]
    · have hfmem : f ∈ s.map Prod.fst := by
        rcases List.mem_cons.mp hf with h | h
        · exact absurd h.symm hk
        · exact h
      have hukne : uk k0 ≠ uk f := by
        intro hcontra
        apply hnd1
        rw [hcontra]
        rcases List.mem_map.mp hfmem with ⟨kv', hkv', he⟩
        rw [← he]
        exact List.mem_map_of_mem (fun kv => uk kv.1) hkv'
      have hhead : clearField f ((k0, v0) :: s) = (k0, v0) :: clearField f s := by
        unfold clearField
        rw [List.map_cons, if_neg hk]
      rw [hhead, List.filterMap_cons, List.filterMap_cons]
      rcases hv : projEntry uk (k0, v0) with _ | e0
      · exact ih hnd2 hfmem
      · have he0 := projEntry_key uk (k0, v0) e0 hv
        rw [List.filter_cons]
        have hb : (e0.1 != uk f) = true := by
          simp only [bne_iff_ne, ne_eq, decide_not, decide_eq_true_eq, he0]
          simpa using hukne
        rw [hb]
        simp only [if_pos]
        rw [ih hnd2 hfmem]

lemma map_fst_clearField (f : String) (s : StateMap) :
    (clearField f s).map Prod.fst = s.map Prod.fst := by
  induction s with
  | nil => rfl
  | cons kv s ih =>
    obtain ⟨k0, v0⟩ := kv
    unfold clearField at ih ⊢
    rw [List.map_cons, List.map_cons]
    by_cases hk : k0 = f
    · rw [if_pos hk, ih]
      rfl
    · rw [if_neg hk, ih]
      rfl

/-- C6: (omission) a field whose value is absent never contributes its wire
key to the projected record; (exact removal / full replacement) projecting
the state with one field cleared yields exactly the previous projection with
that field's key filtered out, and the write replaces the whole wire record
(`wireAfterWrite` ignores the previous wire contents). -/
theorem claim6_omission_and_replacement (uk : String → String) (s : StateMap) (f : String)
    (hnd : (s.map (fun kv => uk kv.1)).Nodup) (hf : f ∈ s.map Prod.fst) :
    (∀ kv ∈ s, kv.2 = none → uk kv.1 ∉ (updateUrlParams uk s).map Prod.fst)
    ∧ updateUrlParams uk (clearField f s)
        = (updateUrlParams uk s).filter (fun e => e.1 != uk f)
    ∧ ∀ (prev : List (String × Chars)) (w : WireWrite), wireAfterWrite prev w = w.queryParams := by
  refine ⟨?_, ?_, fun _ _ => rfl⟩
  · intro kv hkv hnone hcontra
    rw [updateUrlParams_eq_filterMap uk s hnd] at hcontra
    rcases List.mem_map.mp hcontra with ⟨e, he, hex⟩
    rcases List.mem_filterMap.mp he with ⟨kv', hkv', hpe⟩
    have hkey := projEntry_key uk kv' e hpe
    have himg : uk kv'.1 = uk kv.1 := by rw [← hkey, hex]
    have : kv' = kv := List.inj_on_of_nodup_map hnd hkv' hkv himg
    subst this
    unfold projEntry at hpe
    rw [hnone] at hpe
    simp [serializeUrlParam] at hpe
  · have hndc : ((clearField f s).map (fun kv => uk kv.1)).Nodup := by
      have : (clearField f s).map (fun kv => uk kv.1) = s.map (fun kv => uk kv.1) := by
        have h1 : (clearField f s).map (fun kv => uk kv.1)
            = ((clearField f s).map Prod.fst).map uk := by
          simp [List.map_map, Function.comp]
        have h2 : s.map (fun kv => uk kv.1) = (s.map Prod.fst).map uk := by
          simp [List.map_map, Function.comp]
        rw [h1, h2, map_fst_clearField]
      rw [this]
      exact hnd
    rw [updateUrlParams_eq_filterMap uk (clearField f s) hndc,
      updateUrlParams_eq_filterMap uk s hnd]
    exact filterMap_clearField uk f s hnd hf

/-- C6 witness: the Stats state with `compareDateFrom` absent, clearing
`dateTo`, evaluated concretely. -/
theorem claim6_witness :
    (([("dateFrom", some (Value.date ⟨2024, 0, 15, 0⟩)),
        ("dateTo", some (Value.date ⟨2024, 0, 20, 0⟩)),
        ("compareDateFrom", (none : Option Value))] : StateMap).map
          (fun kv => statsUrlKey kv.1)).Nodup
    ∧ ((∀ kv ∈ ([("dateFrom", some (Value.date ⟨2024, 0, 15, 0⟩)),
          ("dateTo", some (Value.date ⟨2024, 0, 20, 0⟩)),
          ("compareDateFrom", (none : Option Value))] : StateMap),
        kv.2 = none →
          statsUrlKey kv.1 ∉
            (updateUrlParams statsUrlKey
              [("dateFrom", some (Value.date ⟨2024, 0, 15, 0⟩)),
                ("dateTo", some (Value.date ⟨2024, 0, 20, 0⟩)),
                ("compareDateFrom", (none : Option Value))]).map Prod.fst)
      ∧ updateUrlParams statsUrlKey
          (clearField "dateTo"
            [("dateFrom", some (Value.date ⟨2024, 0, 15, 0⟩)),
              ("dateTo", some (Value.date ⟨2024, 0, 20, 0⟩)),
              ("compareDateFrom", (none : Option Value))])
        = (updateUrlParams statsUrlKey
            [("dateFrom", some (Value.date ⟨2024, 0, 15, 0⟩)),
              ("dateTo", some (Value.date ⟨2024, 0, 20, 0⟩)),
              ("compareDateFrom", (none : Option Value))]).filter
            (fun e => e.1 != statsUrlKey "dateTo")
      ∧ ∀ (prev : List (String × Chars)) (w : WireWrite), wireAfterWrite prev w = w.queryParams) :=
  ⟨by decide,
    claim6_omission_and_replacement statsUrlKey
      [("dateFrom", some (Value.date ⟨2024, 0, 15, 0⟩)),
        ("dateTo", some (Value.date ⟨2024, 0, 20, 0⟩)),
        ("compareDateFrom", (none : Option Value))]
      "dateTo" (by decide) (by decide)⟩

/-! ### C1: echo of a push -/

/-- What one form entry turns into after the echo round trip: project it,
then deserialize the projected wire entry back (the composite the echo
applies fieldwise). -/
def statsEcho (kv : String × Option Value) : Option (String × Value) :=
  (projEntry statsUrlKey kv).map (fun e => (e.1, deserializeUrlParamStats e.1 e.2))

lemma statsEcho_key : ∀ (kv : String × Option Value) (r : String × Value),
    statsEcho kv = some r → r.1 = kv.1 := by
  intro kv r h
  unfold statsEcho at h
  cases hp : projEntry statsUrlKey kv with
  | none => rw [hp] at h; simp at h
  | some e =>
    rw [hp] at h
    simp only [Option.map_some, Option.map_some', Option.some.injEq] at h
    have hk := projEntry_key statsUrlKey kv e hp
    rw [← h]
    exact hk

lemma lookup_none_of_not_mem_keys (k : String) :
    ∀ l : List (String × Value), k ∉ l.map Prod.fst → List.lookup k l = none := by
  intro l
  induction l with
  | nil => intro _; rfl
  | cons e l ih =>
    intro h
    obtain ⟨k0, v0⟩ := e
    have hk : k ≠ k0 := by
      intro he
      exact h (by simp [he])
    have ht : k ∉ l.map Prod.fst := by
      intro hm
      apply h
      rw [List.map_cons]
      exact List.mem_cons_of_mem _ hm
    simp [List.lookup, beq_eq_false_iff_ne.mpr hk, ih ht]

lemma keys_filterMap_sub (pf : (String × Option Value) → Option (String × Value))
    (hpf : ∀ kv r, pf kv = some r → r.1 = kv.1) (s : StateMap) :
    ∀ x ∈ (s.filterMap pf).map Prod.fst, x ∈ s.map Prod.fst := by
  intro x hx
  rcases List.mem_map.mp hx with ⟨r, hr, hrx⟩
  rcases List.mem_filterMap.mp hr with ⟨kv, hkv, hpe⟩
  rw [← hrx, hpf kv r hpe]
  exact List.mem_map_of_mem Prod.fst hkv

lemma lookup_filterMap_keypres (pf : (String × Option Value) → Option (String × Value))
    (hpf : ∀ kv r, pf kv = some r → r.1 = kv.1) :
    ∀ (s : StateMap) (kv : String × Option Value), (s.map Prod.fst).Nodup → kv ∈ s →
      List.lookup kv.1 (s.filterMap pf) = (pf kv).map Prod.snd := by
  intro s
  induction s with
  | nil => intro kv _ hm; simp at hm
  | cons kv0 s ih =>
    intro kv hnd hm
    obtain ⟨hnd1, hnd2⟩ : kv0.1 ∉ s.map Prod.fst ∧ (s.map Prod.fst).Nodup := by
      rw [List.map_cons, List.nodup_cons] at hnd
      exact hnd
    rw [List.filterMap_cons]
    rcases List.mem_cons.mp hm with he | hm'
    · subst he
      cases hp : pf kv with
      | none =>
        rw [Option.map_none']
        apply lookup_none_of_not_mem_keys
        intro hmem
        exact hnd1 (keys_filterMap_sub pf hpf s kv.1 hmem)
      | some r =>
        have hr := hpf kv r hp
        rw [Option.map_some']
        simp [List.lookup, beq_iff_eq, hr]
    · have hk : kv.1 ≠ kv0.1 := by
        intro he
        apply hnd1
        rw [← he]
        exact List.mem_map_of_mem Prod.fst hm'
      cases hp : pf kv0 with
      | none => exact ih kv hnd2 hm'
      | some r =>
        have hr := hpf kv0 r hp
        have hb : (kv.1 == r.1) = false := by
          rw [hr]
          exact beq_eq_false_iff_ne.mpr hk
        simp only [List.lookup, hb]
        exact ih kv hnd2 hm'

lemma getFormControlKey_self : ∀ (controls : List String) (k : String), k ∈ controls →
    getFormControlKey controls statsUrlKey k = some k := by
  intro controls k
  induction controls with
  | nil => intro h; simp at h
  | cons c cs ih =>
    intro h
    unfold getFormControlKey
    by_cases hc : c = k
    · subst hc
      rw [List.find?_cons_of_pos _ (by simp [statsUrlKey])]
    · rw [List.find?_cons_of_neg _ (by simp [statsUrlKey, hc])]
      have hk : k ∈ cs := by
        rcases List.mem_cons.mp h with h1 | h1
        · exact absurd h1.symm hc
        · exact h1
      have := ih hk
      unfold getFormControlKey at this
      exact this

lemma intToChars_ne_nil (i : Int) : intToChars i ≠ [] := by
  unfold intToChars
  split
  · simp
  · exact natToChars_ne_nil _

lemma serializeDate_ne_nil (dt : JSDate) : serializeDate dt ≠ [] := by
  unfold serializeDate
  simp [intToChars_ne_nil]

lemma statsControls_date_key (k : String) (h : k ∈ statsControls) :
    (containsSeq "date".toList k.toList || containsSeq "Date".toList k.toList) = true := by
  unfold statsControls at h
  rcases List.mem_cons.mp h with rfl | h
  · decide
  rcases List.mem_cons.mp h with rfl | h
  · decide
  rcases List.mem_cons.mp h with rfl | h
  · decide
  rcases List.mem_cons.mp h with rfl | h
  · decide
  simp at h

/-- On a wire record of truthy entries whose keys all resolve to themselves,
the Stats reconciler collects every value (total deserializer: no `catch`
possible) and emits no diagnostics. -/
lemma reconcile_good : ∀ (w : List (String × Chars)) (p : List (String × Value)),
    (∀ e ∈ w, e.2 ≠ [] ∧ e.1 ∈ statsControls) →
    w.foldl (reconcileStep statsControls statsUrlKey statsDeser) ⟨p, []⟩
      = ⟨w.foldl (fun pp e => recordSet pp e.1 (deserializeUrlParamStats e.1 e.2)) p, []⟩ := by
  intro w
  induction w with
  | nil => intro p _; rfl
  | cons e w ih =>
    intro p hw
    obtain ⟨hne, hmem⟩ := hw e (List.mem_cons_self _ _)
    rw [List.foldl_cons, List.foldl_cons]
    have hstep : reconcileStep statsControls statsUrlKey statsDeser ⟨p, []⟩ e
        = ⟨recordSet p e.1 (deserializeUrlParamStats e.1 e.2), []⟩ := by
      unfold reconcileStep
      rw [if_neg hne, getFormControlKey_self statsControls e.1 hmem]
      rfl
    rw [hstep]
    exact ih _ (fun e' he' => hw e' (List.mem_cons_of_mem _ he'))

lemma foldl_recordSet_map (g : String × Chars → Value) :
    ∀ (w : List (String × Chars)) (p : List (String × Value)),
      (∀ e ∈ w, ∀ e' ∈ p, (e' : String × Value).1 ≠ e.1) → (w.map Prod.fst).Nodup →
      w.foldl (fun pp e => recordSet pp e.1 (g e)) p = p ++ w.map (fun e => (e.1, g e)) := by
  intro w
  induction w with
  | nil => intro p _ _; simp
  | cons e w ih =>
    intro p hdisj hnd
    obtain ⟨hnd1, hnd2⟩ : e.1 ∉ w.map Prod.fst ∧ (w.map Prod.fst).Nodup := by
      rw [List.map_cons, List.nodup_cons] at hnd
      exact hnd
    rw [List.foldl_cons]
    rw [recordSet_fresh e.1 (g e) p (fun e' he' => hdisj e (List.mem_cons_self _ _) e' he')]
    have hdisj2 : ∀ e'' ∈ w, ∀ e' ∈ p ++ [(e.1, g e)], (e' : String × Value).1 ≠ e''.1 := by
      intro e'' he'' e' he'
      rcases List.mem_append.mp he' with h | h
      · exact hdisj e'' (List.mem_cons_of_mem _ he'') e' h
      · have : e' = (e.1, g e) := by simpa using h
        subst this
        intro hcontra
        apply hnd1
        rw [show e.1 = e''.1 from hcontra]
        exact List.mem_map_of_mem Prod.fst he''
    rw [ih (p ++ [(e.1, g e)]) hdisj2 hnd2]
    simp

lemma keys_filterMap_sublist :
    ∀ s : StateMap,
      ((s.filterMap (projEntry statsUrlKey)).map Prod.fst).Sublist (s.map Prod.fst) := by
  intro s
  induction s with
  | nil => simp
  | cons kv s ih =>
    rw [List.filterMap_cons]
    cases hp : projEntry statsUrlKey kv with
    | none =>
      rw [List.map_cons]
      exact ih.cons kv.1
    | some e =>
      rw [List.map_cons, List.map_cons]
      have he := projEntry_key statsUrlKey kv e hp
      rw [show e.1 = kv.1 from he]
      exact ih.cons₂ kv.1

lemma valueDateOnlyEq_refl (v : Option Value) : valueDateOnlyEq v v = true := by
  cases v with
  | none => rfl
  | some x => cases x <;> simp [valueDateOnlyEq]

lemma stateDateOnlyEq_refl : ∀ s : StateMap, stateDateOnlyEq s s = true := by
  intro s
  induction s with
  | nil => rfl
  | cons kv s ih => simp [stateDateOnlyEq, valueDateOnlyEq_refl, ih]

lemma stateDateOnlyEq_applyPatch (p : List (String × Value)) :
    ∀ s : StateMap,
      (∀ kv ∈ s, valueDateOnlyEq
        (match List.lookup kv.1 p with
          | some v => some v
          | none => kv.2) kv.2 = true) →
      stateDateOnlyEq (applyPatch s p) s = true := by
  intro s
  induction s with
  | nil => intro _; rfl
  | cons kv s ih =>
    intro h
    have hh := h kv (List.mem_cons_self _ _)
    have ht := ih (fun kv' h' => h kv' (List.mem_cons_of_mem _ h'))
    unfold applyPatch
    rw [List.map_cons]
    unfold applyPatch at ht
    cases hl : List.lookup kv.1 p with
    | some v =>
      rw [hl] at hh
      have hh' : valueDateOnlyEq (some v) kv.2 = true := hh
      simp [stateDateOnlyEq, hl, hh', ht]
    | none =>
      rw [hl] at hh
      have hh' : valueDateOnlyEq kv.2 kv.2 = true := hh
      simp [stateDateOnlyEq, hl, hh', ht, valueDateOnlyEq_refl]

/-- C1 (amended): pushing a Stats filter state to the wire and feeding the
exact written record back through the reconciler — the wire sink's echo —
emits zero diagnostics, and the resulting state equals the original *up to
date-only equality of each field*: the echo is reconciled rather than
dropped (no SyncTag exists), and it applies a non-empty patch whenever any
field is present, resetting each date's time of day to midnight (see the
counterexample).  Stated for states over the Stats controls with distinct
keys whose values are absent or valid dates with year ≥ 100. -/
theorem claim1_echo_amended (s : StateMap)
    (hnd : (s.map Prod.fst).Nodup)
    (hctl : ∀ kv ∈ s, kv.1 ∈ statsControls)
    (hval : ∀ kv ∈ s, kv.2 = none ∨ ∃ dt, kv.2 = some (.date dt) ∧ dtOK dt) :
    (updateFormFromUrl statsControls statsUrlKey statsDeser (updateUrlParams statsUrlKey s)).diags
      = []
    ∧ stateDateOnlyEq
        (applyReconcile s
          (updateFormFromUrl statsControls statsUrlKey statsDeser (updateUrlParams statsUrlKey s)))
        s = true := by
  have hnd' : (s.map (fun kv => statsUrlKey kv.1)).Nodup := by
    simpa [statsUrlKey] using hnd
  have hproj := updateUrlParams_eq_filterMap statsUrlKey s hnd'
  have hwmem : ∀ e ∈ s.filterMap (projEntry statsUrlKey), e.2 ≠ [] ∧ e.1 ∈ statsControls := by
    intro e he
    rcases List.mem_filterMap.mp he with ⟨kv, hkv, hpe⟩
    rcases hval kv hkv with hN | ⟨dt, hdt, hok⟩
    · unfold projEntry at hpe
      rw [hN] at hpe
      simp [serializeUrlParam] at hpe
    · unfold projEntry at hpe
      rw [hdt] at hpe
      simp only [serializeUrlParam, Option.map_some, Option.map_some', Option.some.injEq] at hpe
      have he2 : (statsUrlKey kv.1, serializeDate dt) = e := hpe
      rw [← he2]
      exact ⟨serializeDate_ne_nil dt, by simpa [statsUrlKey] using hctl kv hkv⟩
  have hwkeys : ((s.filterMap (projEntry statsUrlKey)).map Prod.fst).Nodup :=
    (keys_filterMap_sublist s).nodup hnd
  have hrec : updateFormFromUrl statsControls statsUrlKey statsDeser
        (s.filterMap (projEntry statsUrlKey))
      = ⟨(s.filterMap (projEntry statsUrlKey)).map
          (fun e => (e.1, deserializeUrlParamStats e.1 e.2)), []⟩ := by
    unfold updateFormFromUrl
    rw [reconcile_good (s.filterMap (projEntry statsUrlKey)) [] hwmem]
    rw [foldl_recordSet_map (fun e => deserializeUrlParamStats e.1 e.2)
      (s.filterMap (projEntry statsUrlKey)) [] (by simp) hwkeys]
    simp
  have hpatch : (updateFormFromUrl statsControls statsUrlKey statsDeser
        (s.filterMap (projEntry statsUrlKey))).patch
      = s.filterMap statsEcho := by
    rw [hrec]
    simp only
    rw [List.map_filterMap]
    rfl
  refine ⟨?_, ?_⟩
  · rw [hproj, hrec]
  · rw [hproj]
    unfold applyReconcile
    by_cases hp : (updateFormFromUrl statsControls statsUrlKey statsDeser
        (s.filterMap (projEntry statsUrlKey))).patch = []
    · rw [if_pos hp]
      exact stateDateOnlyEq_refl s
    · rw [if_neg hp, hpatch]
      apply stateDateOnlyEq_applyPatch
      intro kv hkv
      rw [lookup_filterMap_keypres statsEcho statsEcho_key s kv hnd hkv]
      rcases hval kv hkv with hN | ⟨dt, hdt, hok⟩
      · have hnone : statsEcho kv = none := by
          unfold statsEcho projEntry
          rw [hN]
          rfl
        rw [hnone]
        exact valueDateOnlyEq_refl kv.2
      · have hecho : statsEcho kv
            = some (kv.1, Value.date ⟨dt.year, dt.month, dt.day, 0⟩) := by
          unfold statsEcho projEntry
          rw [hdt]
          simp only [serializeUrlParam, Option.map_some, Option.map_some', statsUrlKey]
          rw [statsRoundTrip kv.1 dt (statsControls_date_key kv.1 (hctl kv hkv)) hok]
        rw [hecho]
        simp only [Option.map_some, Option.map_some']
        rw [hdt]
        simp [valueDateOnlyEq]

/-- C1 counterexample: with `dateFrom = 2024-01-15, 01:00` (nonzero time of
day) the echo of the push is *not* a no-op: the reconciler collects a
non-empty patch (a state mutation) and the state after applying it differs
from the original — the date's time of day has been reset to midnight.  No
tag-based suppression exists; only `emitEvent: false` stops the loop. -/
theorem claim1_counterexample :
    (updateFormFromUrl statsControls statsUrlKey statsDeser
        (updateUrlParams statsUrlKey
          [("dateFrom", some (Value.date ⟨2024, 0, 15, 3600000⟩))])).patch ≠ []
    ∧ applyReconcile [("dateFrom", some (Value.date ⟨2024, 0, 15, 3600000⟩))]
        (updateFormFromUrl statsControls statsUrlKey statsDeser
          (updateUrlParams statsUrlKey
            [("dateFrom", some (Value.date ⟨2024, 0, 15, 3600000⟩))]))
      ≠ [("dateFrom", some (Value.date ⟨2024, 0, 15, 3600000⟩))] := by
  exact ⟨by decide, by decide⟩

/-- C1 witness: the amended echo property evaluated at a state with one
present date field (nonzero time of day) and one absent field. -/
theorem claim1_witness :
    (([("dateFrom", some (Value.date ⟨2024, 0, 15, 3600000⟩)),
        ("compareDateFrom", (none : Option Value))] : StateMap).map Prod.fst).Nodup
    ∧ ((updateFormFromUrl statsControls statsUrlKey statsDeser
          (updateUrlParams statsUrlKey
            [("dateFrom", some (Value.date ⟨2024, 0, 15, 3600000⟩)),
              ("compareDateFrom", (none : Option Value))])).diags = []
      ∧ stateDateOnlyEq
          (applyReconcile
            [("dateFrom", some (Value.date ⟨2024, 0, 15, 3600000⟩)),
              ("compareDateFrom", (none : Option Value))]
            (updateFormFromUrl statsControls statsUrlKey statsDeser
              (updateUrlParams statsUrlKey
                [("dateFrom", some (Value.date ⟨2024, 0, 15, 3600000⟩)),
                  ("compareDateFrom", (none : Option Value))])))
          [("dateFrom", some (Value.date ⟨2024, 0, 15, 3600000⟩)),
            ("compareDateFrom", (none : Option Value))] = true) :=
  ⟨by decide,
    claim1_echo_amended
      [("dateFrom", some (Value.date ⟨2024, 0, 15, 3600000⟩)),
        ("compareDateFrom", (none : Option Value))]
      (by decide) (by decide)
      (by
        intro kv hkv
        rcases List.mem_cons.mp hkv with h | h
        · subst h
          right
          exact ⟨⟨2024, 0, 15, 3600000⟩, rfl, by decide⟩
        rcases List.mem_cons.mp h with h2 | h2
        · subst h2
          left
          rfl
        · simp at h2)⟩
